import Mathlib

set_option maxRecDepth 100000

/-!
Shallow embedding of the research-paper summarization / website-generation
service (files `app.py` and `api/index.py`).  Python strings are modelled as
`List Char`; Python string primitives (`str.strip`, `str.split`,
`str.join`, slicing) are translated below, and each endpoint / helper of the
source is translated into an executable Lean function over this model.
-/

namespace PaperApp

/-- Python strings are modelled as lists of characters. -/
abbrev Str := List Char

/-- The ASCII whitespace characters stripped by Python's `str.strip()` and
matched by the regex class `\s`. -/
def isSpacePy (c : Char) : Bool :=
  c = ' ' || c = '\t' || c = '\n' || c = '\r' || c = Char.ofNat 11 || c = Char.ofNat 12

/-- Leading-whitespace removal, as in Python `str.lstrip()`. -/
def pyStripLeft (l : Str) : Str := l.dropWhile isSpacePy

/-- Trailing-whitespace removal, as in Python `str.rstrip()`. -/
def pyStripRight (l : Str) : Str := (l.reverse.dropWhile isSpacePy).reverse

/-- Python `str.strip()`: drop whitespace from both ends. -/
def pyStrip (l : Str) : Str := pyStripRight (pyStripLeft l)

/-- Auxiliary structure of Python `str.split(sep)`: first segment plus the
remaining segments. -/
def splitOn1 (sep : Char) : Str → Str × List Str
  | [] => ([], [])
  | c :: cs =>
    let p := splitOn1 sep cs
    if c = sep then ([], p.1 :: p.2) else (c :: p.1, p.2)

/-- Python `str.split(sep)` for a one-character separator: always returns at
least one (possibly empty) segment. -/
def pySplit (sep : Char) (l : Str) : List Str :=
  (splitOn1 sep l).1 :: (splitOn1 sep l).2

/-- Python `sep.join(xs)` for a one-character separator. -/
def pyJoin (sep : Char) : List Str → Str
  | [] => []
  | [x] => x
  | x :: y :: xs => x ++ sep :: pyJoin sep (y :: xs)

/-- Python `s.split(marker, 1)` restricted to the information the source
uses: `some (before, after)` splits at the first occurrence of `marker`,
`none` means the marker does not occur. -/
def splitFirst (marker : Str) : Str → Option (Str × Str)
  | [] => if marker.isPrefixOf ([] : Str) then some ([], []) else none
  | c :: cs =>
    if marker.isPrefixOf (c :: cs) then some ([], (c :: cs).drop marker.length)
    else
      match splitFirst marker cs with
      | some (pre, post) => some (c :: pre, post)
      | none => none

/-! ### Language-model gateway: the summarization prompt (C8)

Source (`app.py` line 76 / `api/index.py` line 68):
`prompt = f"Summarize the following ... 'Conclusion:'.\n\nText: {text[:4000]}"`. -/

/-- The fixed prefix of the summarization prompt, up to the interpolated
(truncated) paper text. -/
def summaryPromptFixed : Str :=
  ("Summarize the following research paper text (max 200 words) and provide a separate conclusion. Separate the summary and conclusion with the exact phrase 'Conclusion:'.\n\nText: ").toList

/-- Prompt construction of `generate_summary_and_conclusion`: the fixed text
followed by `text[:4000]`. -/
def buildSummaryPrompt (text : Str) : Str :=
  summaryPromptFixed ++ text.take 4000

/-! ### Summarization Stage output parsing (C3)

Source (`app.py` lines 80-82):
`parts = output.split("Conclusion:", 1)`,
`summary = parts[0].strip()`,
`conclusion = parts[1].strip() if len(parts) > 1 else "No specific conclusion was generated."`. -/

/-- The literal marker the model is instructed to emit. -/
def conclusionMarker : Str := ("Conclusion:").toList

/-- The fixed placeholder used when the marker is absent. -/
def noConclusionMsg : Str := ("No specific conclusion was generated.").toList

/-- The parsing step of `generate_summary_and_conclusion`, applied to the raw
model output: split on the first `Conclusion:`, trim both sides; if the
marker is absent the whole trimmed output is the summary and the conclusion
is the placeholder. -/
def parseSummaryOutput (output : Str) : Str × Str :=
  match splitFirst conclusionMarker output with
  | some (pre, post) => (pyStrip pre, pyStrip post)
  | none => (pyStrip output, noConclusionMsg)

/-! ### Idea Generation Stage output parsing (C6)

Source (`app.py` lines 94-95):
`raw_ideas = response...content.strip()`,
`return [idea.strip() for idea in raw_ideas.split("\n") if idea.strip()]`. -/

/-- The parsing step of `generate_project_ideas`, applied to the raw model
output: outer strip, split on newlines, strip each line, keep the non-empty
ones (a Python list comprehension filtered on truthiness of the stripped
line). -/
def parseIdeasOutput (output : Str) : List Str :=
  ((pySplit '\n' (pyStrip output)).map pyStrip).filter (fun l => !l.isEmpty)

/-- The parsing rule exactly as the specification words it: split the output
on line breaks, trim each line, discard empty lines — with no outer strip. -/
def specIdeasParse (output : Str) : List Str :=
  ((pySplit '\n' output).map pyStrip).filter (fun l => !l.isEmpty)

/-! ### Text Extractor (C7)

Source (`app.py` lines 59-71): `PyPDF2.PdfReader` may raise on a malformed
file; otherwise the pages' `extract_text()` results (possibly `None`) are
concatenated via `page.extract_text() or ""`, and an all-whitespace result
raises. -/

/-- A PDF from the extractor's point of view: either structurally malformed
(the reader constructor raises) or a list of pages, each yielding either
`none` (no text layer) or some text. -/
inductive PdfFile where
  | malformed : PdfFile
  | pages : List (Option Str) → PdfFile

/-- `extract_text_from_pdf`: concatenate per-page text in page order, a page
with no text contributing `""`; fail when the reader raises or the
concatenation is empty/whitespace-only. -/
def extract_text_from_pdf : PdfFile → Except Unit Str
  | .malformed => .error ()
  | .pages ps =>
    let text := (ps.map (fun p => p.getD [])).flatten
    if (pyStrip text).isEmpty then .error () else .ok text

/-! ### Persistence store (C1, C2, C9)

Source: the `summaries` table with columns
`(id, filename, summary, conclusion, project_ideas)`; `project_ideas` is
stored as the `"|".join(...)` of the idea list (`app.py` line 182) and read
back as `r[4].split("|") if r[4] else []` (`app.py` line 202). -/

/-- One row of the `summaries` table. -/
structure SummaryRow where
  id : Str
  filename : Str
  summary : Str
  conclusion : Str
  project_ideas : Str
deriving DecidableEq, Repr

/-- A record as returned by the list endpoint (no id; ideas deserialized). -/
structure SummaryOut where
  filename : Str
  summary : Str
  conclusion : Str
  project_ideas : List Str
deriving DecidableEq, Repr

/-- Row construction performed by the insert in `summarize_papers`:
`project_ideas` is the `'|'`-joined idea list. -/
def mkSummaryRow (id filename summary conclusion : Str) (ideas : List Str) : SummaryRow :=
  ⟨id, filename, summary, conclusion, pyJoin '|' ideas⟩

/-- `INSERT INTO summaries VALUES (...)`: append one row to the store. -/
def insertRow (db : List SummaryRow) (r : SummaryRow) : List SummaryRow := db ++ [r]

/-- Deserialization performed by `get_summaries`:
`r[4].split("|") if r[4] else []`. -/
def parseIdeas (s : Str) : List Str :=
  if s.isEmpty then [] else pySplit '|' s

/-- Projection of a stored row to the response shape of `get_summaries`. -/
def toRecord (r : SummaryRow) : SummaryOut :=
  ⟨r.filename, r.summary, r.conclusion, parseIdeas r.project_ideas⟩

/-- `get_summaries`: `SELECT * FROM summaries ORDER BY filename`, then map
each row to its response record. -/
def get_summaries (db : List SummaryRow) : List SummaryOut :=
  (db.insertionSort (fun a b => a.filename ≤ b.filename)).map toRecord

instance : IsTotal SummaryRow (fun a b => a.filename ≤ b.filename) :=
  ⟨fun a b => le_total a.filename b.filename⟩

instance : IsTrans SummaryRow (fun a b => a.filename ≤ b.filename) :=
  ⟨fun _ _ _ hab hbc => le_trans hab hbc⟩

/-- Attaching one more (non-separator) character to the end of a split:
the final segment is extended.  (Specification device used to reason about
`splitOn1` on appends.) -/
def addLastSeg (c : Char) : Str × List Str → Str × List Str
  | (h, []) => (h ++ [c], [])
  | (h, t0 :: ts) => (h, (t0 :: ts).dropLast ++ [(t0 :: ts).getLastD [] ++ [c]])

/-! ### The multi-file summarize batch (C2)

`app.py` lines 169-192 open a connection, insert and `commit()` *inside* the
per-file loop, and abort the request on the first failing file;
`api/index.py` lines 136-160 insert inside the loop but `commit()` once
*after* the loop, so any failure discards every pending row. -/

/-- Outcome of the extraction + generation stages for one file: the stages
either produce a summary, conclusion and idea list, or raise. -/
inductive ProcOutcome where
  | ok (summary conclusion : Str) (ideas : List Str) : ProcOutcome
  | fail : ProcOutcome
deriving DecidableEq, Repr

/-- One uploaded file together with what the (external) stages will do
with it. -/
structure BatchFile where
  filename : Str
  outcome : ProcOutcome
deriving DecidableEq, Repr

/-- Does the pipeline succeed on this file? -/
def BatchFile.isOk (f : BatchFile) : Bool :=
  match f.outcome with
  | .ok _ _ _ => true
  | .fail => false

/-- The row inserted for a successfully processed file (`uuid k` stands for
`str(uuid.uuid4())` of the k-th insert of the request). -/
def rowOf (uuid : Nat → Str) (k : Nat) (f : BatchFile) (s c : Str) (ideas : List Str) : SummaryRow :=
  mkSummaryRow (uuid k) f.filename s c ideas

/-- The response entry appended for a successfully processed file. -/
def respOf (f : BatchFile) (s c : Str) (ideas : List Str) : SummaryOut :=
  ⟨f.filename, s, c, ideas⟩

/-- The per-file loop of `app.py`'s `summarize_papers`: each successful file
is inserted *and committed* immediately; the first failure aborts the
request, leaving previously committed rows in the store. Returns the
response (or the error) together with the final committed store. -/
def summarizeAppLoop (uuid : Nat → Str) (k : Nat) (db : List SummaryRow) :
    List BatchFile → Except Unit (List SummaryOut) × List SummaryRow
  | [] => (.ok [], db)
  | f :: fs =>
    match f.outcome with
    | .fail => (.error (), db)
    | .ok s c ideas =>
      let db' := insertRow db (rowOf uuid k f s c ideas)
      match summarizeAppLoop uuid (k + 1) db' fs with
      | (.ok rs, dbF) => (.ok (respOf f s c ideas :: rs), dbF)
      | (.error e, dbF) => (.error e, dbF)

/-- `app.py`'s `summarize_papers` endpoint (the primary variant). -/
def summarize_papers_app (uuid : Nat → Str) (db : List SummaryRow)
    (files : List BatchFile) : Except Unit (List SummaryOut) × List SummaryRow :=
  summarizeAppLoop uuid 0 db files

/-- The per-file loop of `api/index.py`'s `summarize_papers`: rows are
accumulated as pending statements of one connection. -/
def summarizeIndexLoop (uuid : Nat → Str) (k : Nat) :
    List BatchFile → Except Unit (List SummaryOut × List SummaryRow)
  | [] => .ok ([], [])
  | f :: fs =>
    match f.outcome with
    | .fail => .error ()
    | .ok s c ideas =>
      match summarizeIndexLoop uuid (k + 1) fs with
      | .ok (rs, pend) =>
          .ok (respOf f s c ideas :: rs, rowOf uuid k f s c ideas :: pend)
      | .error e => .error e

/-- `api/index.py`'s `summarize_papers` endpoint (the serverless variant):
`conn.commit()` runs only after the whole loop, so a failure discards every
pending insert and the store is unchanged. -/
def summarize_papers_index (uuid : Nat → Str) (db : List SummaryRow)
    (files : List BatchFile) : Except Unit (List SummaryOut) × List SummaryRow :=
  match summarizeIndexLoop uuid 0 files with
  | .ok (rs, pend) => (.ok rs, db ++ pend)
  | .error e => (.error e, db)

/-- The rows the primary variant durably commits for one request: one row
per file of the longest all-successful prefix of the batch. -/
def okRows (uuid : Nat → Str) (k : Nat) : List BatchFile → List SummaryRow
  | [] => []
  | f :: fs =>
    match f.outcome with
    | .fail => []
    | .ok s c ideas => rowOf uuid k f s c ideas :: okRows uuid (k + 1) fs

/-! ### Sanitization of generated script code (C4, C5)

Source (`app.py` lines 100-104): two `re.sub` passes,
first `const\s+([^=]+)\s*=\s*require\('([^']+)'\);?` rewritten to
`// const \1 = require("\2"); // Commented out for browser compatibility`,
then `import\s+[^;\n]+\s+from\s+['"](fs|path|http|module)['"];` replaced by
`// Server-side import removed for browser`.  The matchers below implement
exactly the backtracking-greedy semantics of those two patterns. -/

/-- Attempted match of the first pattern at the start of `l`.  Returns the
two capture groups and the number of characters consumed.  The regex engine
behaviour folds out as follows: the block between `const` and the first `=`
must begin with whitespace (`\s+`); group 1 is that block minus its maximal
whitespace run — or, when the block is all whitespace of length at least 2,
its final character (the greedy `\s+` backtracks once so that `[^=]+` can
consume one character); after `=`, greedy `\s*` then the literals and group
2 (`[^']+`, which cannot backtrack) are deterministic, and `;?` greedily
takes a final semicolon.  `g1OfRun` computes group 1 from the block between
`const` and the first `=`. -/
def g1OfRun (run : Str) : Option Str :=
  match run with
  | [] => none
  | rc :: _ =>
    if isSpacePy rc then
      let g1cand := run.dropWhile isSpacePy
      if g1cand.isEmpty then
        (if 2 ≤ run.length then some [run.getLastD ' '] else none)
      else some g1cand
    else none

/-- Match of `\s*require\('([^']+)'\);?` right after the `=`: returns
group 2 and the number of characters consumed after the `=`. -/
def matchP1Tail (r3 : Str) : Option (Str × Nat) :=
  let ws2 := r3.takeWhile isSpacePy
  let r4 := r3.drop ws2.length
  if ("require('").toList.isPrefixOf r4 then
    let r5 := r4.drop 9
    let g2 := r5.takeWhile (fun c => c != '\'')
    if g2.isEmpty then none
    else if ("')").toList.isPrefixOf (r5.drop g2.length) then
      let semi := match r5.drop (g2.length + 2) with
        | ';' :: _ => 1
        | _ => 0
      some (g2, ws2.length + 9 + g2.length + 2 + semi)
    else none
  else none

/-- Attempted match of the whole first pattern at the start of `l`: the two
capture groups and the number of characters consumed. -/
def matchP1At (l : Str) : Option (Str × Str × Nat) :=
  if ("const").toList.isPrefixOf l then
    let r1 := l.drop 5
    let run := r1.takeWhile (fun c => c != '=')
    match r1.drop run.length with
    | '=' :: r3 =>
      match g1OfRun run with
      | none => none
      | some g1 =>
        match matchP1Tail r3 with
        | none => none
        | some (g2, m) => some (g1, g2, 5 + run.length + 1 + m)
    | _ => none
  else none

/-- The replacement template of the first pass, with the two capture groups
substituted. -/
def repl1 (g1 g2 : Str) : Str :=
  ("// const ").toList ++ g1 ++ (" = require(\"").toList ++ g2 ++
    ("\"); // Commented out for browser compatibility").toList

/-- First `re.sub` pass: scan left to right, replace each non-overlapping
match, leave other characters unchanged (fuel-indexed so that every
recursion is structural; `cleanRequire` supplies enough fuel). -/
def cleanRequireAux : Nat → Str → Str
  | 0, l => l
  | _ + 1, [] => []
  | fuel + 1, c :: cs =>
    match matchP1At (c :: cs) with
    | some (g1, g2, n) => repl1 g1 g2 ++ cleanRequireAux fuel (cs.drop (n - 1))
    | none => c :: cleanRequireAux fuel cs

/-- The first substitution of `clean_js_code`. -/
def cleanRequire (l : Str) : Str := cleanRequireAux l.length l

/-- Is this character one of the quote characters matched by `['"]`? -/
def quoteChar (c : Char) : Bool := c = '\'' || c = '"'

/-- The alternation `(fs|path|http|module)`: the alternatives have pairwise
distinct first characters, so at most one can match at a given position. -/
def importMods : List Str := [("fs").toList, ("path").toList, ("http").toList, ("module").toList]

/-- Match of the deterministic tail `\s+from\s+['"](fs|path|http|module)['"];`
at the start of `l`, returning the number of characters consumed.  Each
greedy `\s+` here is followed by a non-whitespace literal, so it can only
match the maximal whitespace run. -/
def matchTail2 (l : Str) : Option Nat :=
  let ws := l.takeWhile isSpacePy
  if ws.isEmpty then none
  else
    let l1 := l.drop ws.length
    if ("from").toList.isPrefixOf l1 then
      let l2 := l1.drop 4
      let ws2 := l2.takeWhile isSpacePy
      if ws2.isEmpty then none
      else
        match l2.drop ws2.length with
        | q1 :: l4 =>
          if quoteChar q1 then
            match importMods.find? (fun m => m.isPrefixOf l4) with
            | some m =>
              match l4.drop m.length with
              | q2 :: ';' :: _ =>
                if quoteChar q2 then
                  some (ws.length + 4 + ws2.length + 1 + m.length + 2)
                else none
              | _ => none
            | none => none
          else none
        | [] => none
    else none

/-- Greedy `[^;\n]+` followed by the tail: consume at least one
mid-character, preferring the longest extension (regex backtracking order),
and fall back to the tail right after the current character. -/
def matchMidTail2 : Str → Option Nat
  | [] => none
  | c :: cs =>
    if c = ';' || c = '\n' then none
    else
      match matchMidTail2 cs with
      | some n => some (n + 1)
      | none =>
        match matchTail2 cs with
        | some n => some (n + 1)
        | none => none

/-- Greedy `\s+` before the mid part: consume at least one whitespace
character, preferring to extend the whitespace run, and fall back to
starting `[^;\n]+` right after the current character. -/
def matchWsMidTail2 : Str → Option Nat
  | [] => none
  | c :: cs =>
    if isSpacePy c then
      match matchWsMidTail2 cs with
      | some n => some (n + 1)
      | none =>
        match matchMidTail2 cs with
        | some n => some (n + 1)
        | none => none
    else none

/-- Attempted match of the second pattern at the start of `l`, returning the
number of characters consumed. -/
def matchP2At (l : Str) : Option Nat :=
  if ("import").toList.isPrefixOf l then
    (matchWsMidTail2 (l.drop 6)).map (· + 6)
  else none

/-- The fixed replacement of the second pass. -/
def repl2 : Str := ("// Server-side import removed for browser").toList

/-- Second `re.sub` pass, same scanning discipline as the first. -/
def cleanImportAux : Nat → Str → Str
  | 0, l => l
  | _ + 1, [] => []
  | fuel + 1, c :: cs =>
    match matchP2At (c :: cs) with
    | some n => repl2 ++ cleanImportAux fuel (cs.drop (n - 1))
    | none => c :: cleanImportAux fuel cs

/-- The second substitution of `clean_js_code`. -/
def cleanImport (l : Str) : Str := cleanImportAux l.length l

/-- `clean_js_code`: the two substitutions in source order. -/
def clean_js_code (code : Str) : Str := cleanImport (cleanRequire code)

/-! ### Generated codebases and the edit stage (C5) -/

/-- The `frontend` object of a generated codebase. -/
structure Frontend where
  index_html : Str
  styles_css : Str
  script_js : Str
deriving DecidableEq, Repr

/-- A `GeneratedCodebase` value as returned by the code stages. -/
structure GeneratedCodebase where
  frontend : Frontend
  backend : Str
  instructions : Str
deriving DecidableEq, Repr

/-- `edit_website_code` with the language-model call abstracted as an oracle:
the model returns either a codebase or a failure; on success the stage
applies `clean_js_code` to the returned `script_js` (`app.py` line 161). -/
def edit_website_code (gateway : Option GeneratedCodebase) :
    Except Unit GeneratedCodebase :=
  match gateway with
  | none => .error ()
  | some cb =>
      .ok { cb with frontend := { cb.frontend with script_js := clean_js_code cb.frontend.script_js } }

/-! ### The generate / edit endpoints' input validation (C10)

Source (`app.py` lines 205-227): `data.get("idea")` etc., rejected with
HTTP 400 when Python-falsy (absent, `""`, `{}`), before any model call. -/

/-- The JSON values these request bodies carry in the relevant fields. -/
inductive JValue where
  | str : Str → JValue
  | obj : List (Str × JValue) → JValue

/-- Python truthiness of `data.get(key)`: `None` (absent), the empty string
and the empty object are falsy. -/
def truthy : Option JValue → Bool
  | none => false
  | some (.str s) => !s.isEmpty
  | some (.obj fs) => !fs.isEmpty

/-- `dict.get`: the value of the first matching key, if any. -/
def pyGet (body : List (Str × JValue)) (key : Str) : Option JValue :=
  (body.find? (fun kv => kv.1 = key)).map (fun kv => kv.2)

/-- `/generate-website` endpoint: reject a falsy `idea` with 400 before the
model is called; otherwise the model oracle decides between a 500 and a
successful codebase. -/
def generate_website_code_api (gateway : Option GeneratedCodebase)
    (body : List (Str × JValue)) : Except Nat GeneratedCodebase :=
  if truthy (pyGet body ("idea").toList) then
    match gateway with
    | some cb => .ok cb
    | none => .error 500
  else .error 400

/-- `/edit-code` endpoint: reject when either `original_code` or
`edit_request` is falsy, before the model is called. -/
def edit_code_api (gateway : Option GeneratedCodebase)
    (body : List (Str × JValue)) : Except Nat GeneratedCodebase :=
  if truthy (pyGet body ("original_code").toList) &&
      truthy (pyGet body ("edit_request").toList) then
    match edit_website_code gateway with
    | .ok cb => .ok cb
    | .error _ => .error 500
  else .error 400

end PaperApp

open PaperApp

/-! ## Helper lemmas about the string model -/

theorem isPrefixOf_append_self (a b : Str) : a.isPrefixOf (a ++ b) = true :=
  List.isPrefixOf_iff_prefix.mpr (List.prefix_append a b)

theorem takeWhile_append_all (p : Char → Bool) {a : Str} (b : Str)
    (h : ∀ c ∈ a, p c = true) : (a ++ b).takeWhile p = a ++ b.takeWhile p := by
  induction a with
  | nil => simp
  | cons c cs ih =>
      simp only [List.cons_append, List.takeWhile_cons, h c (by simp), if_true]
      simp [ih (fun x hx => h x (by simp [hx]))]

theorem dropWhile_append_all (p : Char → Bool) {a : Str} (b : Str)
    (h : ∀ c ∈ a, p c = true) : (a ++ b).dropWhile p = b.dropWhile p := by
  induction a with
  | nil => simp
  | cons c cs ih =>
      simp only [List.cons_append, List.dropWhile_cons, h c (by simp), if_true]
      exact ih (fun x hx => h x (by simp [hx]))

theorem dropWhile_cons_neg (p : Char → Bool) (c : Char) (l : Str)
    (h : p c = false) : (c :: l).dropWhile p = c :: l := by
  simp [List.dropWhile_cons, h]

theorem pyStripLeft_cons_ws {c : Char} (l : Str) (h : isSpacePy c = true) :
    pyStripLeft (c :: l) = pyStripLeft l := by
  simp [pyStripLeft, List.dropWhile_cons, h]

theorem pyStrip_cons_ws {c : Char} (l : Str) (h : isSpacePy c = true) :
    pyStrip (c :: l) = pyStrip l := by
  simp [pyStrip, pyStripLeft_cons_ws l h]

theorem pyStripRight_append_ws {c : Char} (l : Str) (h : isSpacePy c = true) :
    pyStripRight (l ++ [c]) = pyStripRight l := by
  simp [pyStripRight, List.reverse_append, List.dropWhile_cons, h]

theorem pyStrip_all_ws {l : Str} (h : ∀ c ∈ l, isSpacePy c = true) :
    pyStrip l = [] := by
  have h1 : pyStripLeft l = [] := List.dropWhile_eq_nil_iff.mpr h
  simp [pyStrip, h1, pyStripRight]

theorem pyStrip_append_ws {c : Char} (l : Str) (h : isSpacePy c = true) :
    pyStrip (l ++ [c]) = pyStrip l := by
  by_cases hl : pyStripLeft l = []
  · have hall : ∀ x ∈ l, isSpacePy x = true := List.dropWhile_eq_nil_iff.mp hl
    have hall' : ∀ x ∈ l ++ [c], isSpacePy x = true := by
      intro x hx
      rcases List.mem_append.mp hx with h1 | h1
      · exact hall x h1
      · simp at h1; subst h1; exact h
    rw [pyStrip_all_ws hall', pyStrip_all_ws hall]
  · unfold pyStripLeft at hl
    obtain ⟨d, ds, hd⟩ := List.exists_cons_of_ne_nil hl
    unfold pyStrip pyStripLeft
    rw [List.dropWhile_append, hd]
    simp only [List.isEmpty_cons, if_false, Bool.false_eq_true]
    rw [← hd]
    exact pyStripRight_append_ws _ h

theorem pyStripRight_eq_nil_iff {l : Str} :
    pyStripRight l = [] ↔ ∀ c ∈ l, isSpacePy c = true := by
  unfold pyStripRight
  rw [List.reverse_eq_nil_iff, List.dropWhile_eq_nil_iff]
  constructor
  · intro h c hc; exact h c (List.mem_reverse.mpr hc)
  · intro h c hc; exact h c (List.mem_reverse.mp hc)

theorem pyStrip_eq_nil_iff {l : Str} :
    pyStrip l = [] ↔ ∀ c ∈ l, isSpacePy c = true := by
  constructor
  · intro h c hc
    have h2 : ∀ x ∈ pyStripLeft l, isSpacePy x = true := pyStripRight_eq_nil_iff.mp h
    have hsplit : List.takeWhile isSpacePy l ++ List.dropWhile isSpacePy l = l :=
      List.takeWhile_append_dropWhile isSpacePy l
    rcases List.mem_append.mp (by rw [hsplit]; exact hc) with h1 | h1
    · exact List.mem_takeWhile_imp h1
    · exact h2 c h1
  · exact pyStrip_all_ws

/-! ## Claim C3: Summarization Stage output parsing -/

theorem splitFirst_cons_pos (marker : Str) (c : Char) (cs : Str)
    (h : marker.isPrefixOf (c :: cs) = true) :
    splitFirst marker (c :: cs) = some ([], (c :: cs).drop marker.length) := by
  simp [splitFirst, h]

theorem splitFirst_cons_neg (marker : Str) (c : Char) (cs : Str)
    (h : marker.isPrefixOf (c :: cs) = false) :
    splitFirst marker (c :: cs) =
      match splitFirst marker cs with
      | some (pre, post) => some (c :: pre, post)
      | none => none := by
  simp [splitFirst, h]

theorem splitFirst_of_not_contains {m : Str} (hm : m ≠ []) :
    ∀ {s : Str}, ¬ (m <:+: s) → splitFirst m s = none := by
  intro s
  induction s with
  | nil =>
      intro _
      have : m.isPrefixOf ([] : Str) = false := by
        cases m with
        | nil => exact absurd rfl hm
        | cons c cs => rfl
      simp [splitFirst, this]
  | cons c cs ih =>
      intro h
      have hpre : m.isPrefixOf (c :: cs) = false := by
        by_contra hcon
        have : m.isPrefixOf (c :: cs) = true := by
          cases hb : m.isPrefixOf (c :: cs) with
          | true => rfl
          | false => exact absurd hb hcon
        exact h (List.isPrefixOf_iff_prefix.mp this).isInfix
      have hcs : ¬ (m <:+: cs) := fun hc => h (List.infix_cons hc)
      rw [splitFirst_cons_neg m c cs hpre, ih hcs]

theorem splitFirst_first_occurrence {m : Str} (hm : m ≠ []) :
    ∀ (a : Str) {s b : Str}, s = a ++ m ++ b →
      ¬ (m <:+: s.take (a.length + (m.length - 1))) →
      splitFirst m s = some (a, b) := by
  intro a
  induction a with
  | nil =>
      intro s b hs _
      simp only [List.nil_append] at hs
      subst hs
      have hpre : m.isPrefixOf (m ++ b) = true := isPrefixOf_append_self m b
      have hdrop : (m ++ b).drop m.length = b := List.drop_left m b
      cases hmc : m with
      | nil => exact absurd hmc hm
      | cons mc m' =>
          rw [hmc] at hpre hdrop
          rw [List.cons_append] at hdrop
          exact (splitFirst_cons_pos (mc :: m') mc (m' ++ b) hpre).trans (by rw [hdrop])
  | cons c a' ih =>
      intro s b hs hfirst
      subst hs
      have hm1 : 1 ≤ m.length := by
        cases m with
        | nil => exact absurd rfl hm
        | cons x xs => simp
      have hs' : (((c :: a') ++ m) ++ b) = c :: ((a' ++ m) ++ b) := by simp
      have hNlen : (c :: a').length + (m.length - 1) =
          (a'.length + (m.length - 1)) + 1 := by
        simp only [List.length_cons]; omega
      have htake : (((c :: a') ++ m) ++ b).take ((c :: a').length + (m.length - 1)) =
          c :: ((a' ++ m) ++ b).take (a'.length + (m.length - 1)) := by
        rw [hs', hNlen, List.take_succ_cons]
      have hpre : m.isPrefixOf (((c :: a') ++ m) ++ b) = false := by
        by_contra hcon
        have hpre' : m.isPrefixOf (((c :: a') ++ m) ++ b) = true := by
          cases hb : m.isPrefixOf (((c :: a') ++ m) ++ b) with
          | true => rfl
          | false => exact absurd hb hcon
        have hmpre : m <+: ((c :: a') ++ m) ++ b := List.isPrefixOf_iff_prefix.mp hpre'
        -- m occurs at position 0, inside the prefix the hypothesis bans
        have hmtake : m <+: (((c :: a') ++ m) ++ b).take ((c :: a').length + (m.length - 1)) := by
          have htk : m = (((c :: a') ++ m) ++ b).take m.length :=
            List.prefix_iff_eq_take.mp hmpre
          have hle : m.length ≤ (c :: a').length + (m.length - 1) := by
            simp only [List.length_cons]; omega
          calc m = (((c :: a') ++ m) ++ b).take m.length := htk
            _ = ((((c :: a') ++ m) ++ b).take ((c :: a').length + (m.length - 1))).take m.length := by
                  rw [List.take_take]; congr 1; omega
            _ <+: (((c :: a') ++ m) ++ b).take ((c :: a').length + (m.length - 1)) :=
                  List.take_prefix _ _
        exact hfirst hmtake.isInfix
      have hfirst' : ¬ (m <:+: ((a' ++ m) ++ b).take (a'.length + (m.length - 1))) := by
        intro hc
        exact hfirst (htake ▸ List.infix_cons hc)
      have hrec := ih rfl hfirst'
      rw [hs'] at hpre
      rw [hs', splitFirst_cons_neg _ _ _ hpre, hrec]

/-- Claim C3: the Summarization Stage parser splits the model output on the
first occurrence of the literal marker `Conclusion:` — the trimmed text
before the marker is the summary and the trimmed text after it is the
conclusion; when the marker does not occur in the output, the conclusion is
the fixed placeholder, the summary is the whole trimmed output, and the
parse still returns a (summary, conclusion) pair (a success, not a
failure); on `"A B Conclusion: C D"` it yields `("A B", "C D")`. -/
theorem summarize_parses_first_conclusion_marker :
    (∀ (out a b : Str), out = a ++ conclusionMarker ++ b →
        ¬ (conclusionMarker <:+: out.take (a.length + (conclusionMarker.length - 1))) →
        parseSummaryOutput out = (pyStrip a, pyStrip b)) ∧
    (∀ out : Str, ¬ (conclusionMarker <:+: out) →
        parseSummaryOutput out = (pyStrip out, noConclusionMsg)) ∧
    parseSummaryOutput ("A B Conclusion: C D").toList = (("A B").toList, ("C D").toList) := by
  have hm : conclusionMarker ≠ [] := by decide
  refine ⟨?_, ?_, by decide⟩
  · intro out a b hout hfirst
    subst hout
    unfold parseSummaryOutput
    rw [splitFirst_first_occurrence hm a rfl hfirst]
  · intro out hnot
    have := splitFirst_of_not_contains hm hnot
    simp [parseSummaryOutput, this]

/-- Witness for C3: the first-occurrence branch applied at the concrete
output `"A B Conclusion: C D"` with decomposition `"A B " / " C D"`. -/
theorem summarize_parses_first_conclusion_marker_witness :
    parseSummaryOutput ("A B Conclusion: C D").toList =
      (pyStrip ("A B ").toList, pyStrip (" C D").toList) :=
  summarize_parses_first_conclusion_marker.1 ("A B Conclusion: C D").toList
    ("A B ").toList (" C D").toList (by decide) (by decide)

/-! ## Claim C6: Idea Generation Stage output parsing -/

theorem specIdeasParse_cons_nl (l : Str) :
    specIdeasParse ('\n' :: l) = specIdeasParse l := by
  simp [specIdeasParse, pySplit, splitOn1, pyStrip, pyStripLeft, pyStripRight]

theorem specIdeasParse_cons_ws {c : Char} (l : Str) (h : isSpacePy c = true)
    (hc : c ≠ '\n') : specIdeasParse (c :: l) = specIdeasParse l := by
  unfold specIdeasParse pySplit
  have hsp : splitOn1 '\n' (c :: l) =
      (c :: (splitOn1 '\n' l).1, (splitOn1 '\n' l).2) := by
    simp [splitOn1, hc]
  rw [hsp]
  simp [pyStrip_cons_ws _ h]

theorem specIdeasParse_stripLeft (l : Str) :
    specIdeasParse (pyStripLeft l) = specIdeasParse l := by
  induction l with
  | nil => rfl
  | cons c cs ih =>
      cases hw : isSpacePy c with
      | true =>
          rw [pyStripLeft_cons_ws cs hw, ih]
          by_cases hc : c = '\n'
          · subst hc; rw [specIdeasParse_cons_nl]
          · rw [specIdeasParse_cons_ws cs hw hc]
      | false =>
          unfold pyStripLeft
          rw [dropWhile_cons_neg _ _ _ hw]

theorem dropLast_append_getLastD (t : List Str) (h : t ≠ []) (d : Str) :
    t.dropLast ++ [t.getLastD d] = t := by
  induction t generalizing d with
  | nil => exact absurd rfl h
  | cons x xs ih =>
      cases xs with
      | nil => simp
      | cons y ys =>
          rw [List.dropLast_cons_of_ne_nil (by simp), List.getLastD_cons]
          simp only [List.cons_append]
          rw [ih (by simp) x]

theorem splitOn1_cons (sep x : Char) (m : Str) :
    splitOn1 sep (x :: m) =
      if x = sep then ([], (splitOn1 sep m).1 :: (splitOn1 sep m).2)
      else (x :: (splitOn1 sep m).1, (splitOn1 sep m).2) := rfl

theorem splitOn1_append_sep (sep : Char) (l : Str) :
    splitOn1 sep (l ++ [sep]) = ((splitOn1 sep l).1, (splitOn1 sep l).2 ++ [[]]) := by
  induction l with
  | nil => simp [splitOn1]
  | cons c cs ih =>
      by_cases hc : c = sep
      · subst hc
        simp [splitOn1, ih]
      · simp [splitOn1, hc, ih]

theorem splitOn1_append_nonsep {sep c : Char} (hc : c ≠ sep) (l : Str) :
    splitOn1 sep (l ++ [c]) = addLastSeg c (splitOn1 sep l) := by
  induction l with
  | nil => simp [splitOn1, hc, addLastSeg]
  | cons x xs ih =>
      rw [List.cons_append, splitOn1_cons, splitOn1_cons, ih]
      cases hq : splitOn1 sep xs with
      | mk q1 q2 =>
          by_cases hx : x = sep
          · cases q2 with
            | nil => simp only [if_pos hx]; simp [addLastSeg]
            | cons t0 ts =>
                simp only [if_pos hx, addLastSeg]
                rw [List.dropLast_cons_of_ne_nil (by simp : (t0 :: ts) ≠ [])]
                simp [List.getLastD_cons]
          · simp only [if_neg hx]
            cases q2 with
            | nil => simp [addLastSeg]
            | cons t0 ts => simp [addLastSeg]

theorem pyStrip_nil : pyStrip [] = [] := rfl

theorem specIdeasParse_append_ws {c : Char} (l : Str) (h : isSpacePy c = true) :
    specIdeasParse (l ++ [c]) = specIdeasParse l := by
  by_cases hc : c = '\n'
  · subst hc
    unfold specIdeasParse pySplit
    rw [splitOn1_append_sep]
    simp only [List.map_cons, List.map_append, List.map_nil]
    rw [← List.cons_append, List.filter_append]
    simp [pyStrip_nil]
  · unfold specIdeasParse pySplit
    rw [splitOn1_append_nonsep hc]
    cases hq : (splitOn1 '\n' l) with
    | mk q1 q2 =>
        cases q2 with
        | nil => simp [addLastSeg, pyStrip_append_ws _ h]
        | cons t0 ts =>
            simp only [addLastSeg]
            conv_rhs => rw [← dropLast_append_getLastD (t0 :: ts) (by simp) []]
            simp [pyStrip_append_ws _ h]

theorem pyStripRight_append_not_ws {c : Char} (l : Str) (h : isSpacePy c = false) :
    pyStripRight (l ++ [c]) = l ++ [c] := by
  unfold pyStripRight
  rw [List.reverse_append]
  simp only [List.reverse_cons, List.reverse_nil, List.nil_append, List.singleton_append]
  rw [dropWhile_cons_neg _ _ _ h]
  simp

theorem specIdeasParse_stripRight (l : Str) :
    specIdeasParse (pyStripRight l) = specIdeasParse l := by
  induction l using List.reverseRecOn with
  | nil => rfl
  | append_singleton xs a ih =>
      cases hw : isSpacePy a with
      | true => rw [pyStripRight_append_ws xs hw, ih, specIdeasParse_append_ws xs hw]
      | false => rw [pyStripRight_append_not_ws xs hw]

/-- Claim C6: the Idea Generation Stage returns exactly the sequence
obtained by splitting the model output on line breaks, trimming each line
and discarding empty ones, in output order (the outer `strip()` the source
performs first changes nothing); the count is not constrained — the example
output yields exactly its three non-blank lines, and a one-line output
(below the advertised 3–5 range) is accepted unchanged. -/
theorem ideas_parse_is_split_trim_filter :
    (∀ out : Str, parseIdeasOutput out = specIdeasParse out) ∧
    parseIdeasOutput ("Idea1\n\nIdea2\nIdea3").toList =
      [("Idea1").toList, ("Idea2").toList, ("Idea3").toList] ∧
    parseIdeasOutput ("OnlyOne").toList = [("OnlyOne").toList] := by
  refine ⟨?_, by decide, by decide⟩
  intro out
  unfold parseIdeasOutput
  calc ((pySplit '\n' (pyStrip out)).map pyStrip).filter (fun l => !l.isEmpty)
      = specIdeasParse (pyStrip out) := rfl
    _ = specIdeasParse (pyStripLeft out) := specIdeasParse_stripRight _
    _ = specIdeasParse out := specIdeasParse_stripLeft _

/-- Claim C8: the Summarization Stage's prompt construction depends only on
the first 4000 characters of the input paper text — any two inputs agreeing
on that prefix produce the identical prompt, so content beyond the prefix is
never seen by the model. -/
theorem summary_prompt_depends_only_on_4000_prefix
    (t₁ t₂ : Str) (h : t₁.take 4000 = t₂.take 4000) :
    buildSummaryPrompt t₁ = buildSummaryPrompt t₂ := by
  simp [buildSummaryPrompt, h]

/-- Witness for C8 at concrete inputs: two 4001-character texts that differ
only in their last character yield the same prompt. -/
theorem summary_prompt_depends_only_on_4000_prefix_witness :
    (List.replicate 4000 'a' ++ ['b']).take 4000 =
        (List.replicate 4000 'a' ++ ['c']).take 4000 ∧
      buildSummaryPrompt (List.replicate 4000 'a' ++ ['b']) =
        buildSummaryPrompt (List.replicate 4000 'a' ++ ['c']) := by
  have h : (List.replicate 4000 'a' ++ ['b']).take 4000 =
      (List.replicate 4000 'a' ++ ['c']).take 4000 := by
    have hl : (List.replicate 4000 'a').length = 4000 := List.length_replicate 4000 'a'
    rw [List.take_left' hl, List.take_left' hl]
  exact ⟨h, summary_prompt_depends_only_on_4000_prefix _ _ h⟩

/-! ## Claim C7: the Text Extractor -/

/-- Claim C7: `extract_text_from_pdf` concatenates per-page text in page
order with text-less pages contributing `""` (visible in the success value
being exactly the flattened page texts); on a structurally intact PDF it
fails if and only if that concatenation is empty or whitespace-only; it
fails on a malformed PDF; and when at least one page yields non-whitespace
text it succeeds with a non-empty result. -/
theorem extractor_fails_iff_blank_or_malformed :
    (∀ ps : List (Option Str),
        extract_text_from_pdf (.pages ps) = .error () ↔
          ∀ c ∈ (ps.map (fun p => p.getD [])).flatten, isSpacePy c = true) ∧
    extract_text_from_pdf .malformed = .error () ∧
    (∀ ps : List (Option Str),
        (∃ p ∈ ps, ∃ s, p = some s ∧ ∃ c ∈ s, isSpacePy c = false) →
          extract_text_from_pdf (.pages ps) =
              .ok ((ps.map (fun p => p.getD [])).flatten) ∧
            (ps.map (fun p => p.getD [])).flatten ≠ []) := by
  refine ⟨?_, rfl, ?_⟩
  · intro ps
    unfold extract_text_from_pdf
    by_cases hb : pyStrip ((ps.map (fun p => p.getD [])).flatten) = []
    · simp only [hb, List.isEmpty_nil, if_true]
      simpa using pyStrip_eq_nil_iff.mp hb
    · obtain ⟨d, ds, hd⟩ := List.exists_cons_of_ne_nil hb
      simp only [hd, List.isEmpty_cons, Bool.false_eq_true, if_false]
      constructor
      · intro h; exact absurd h (by simp)
      · intro hall
        exact absurd (pyStrip_eq_nil_iff.mpr hall) (by rw [hd]; simp)
  · intro ps ⟨p, hp, s, hps, c, hcs, hcw⟩
    have hmem : c ∈ (ps.map (fun p => p.getD [])).flatten := by
      apply List.mem_flatten.mpr
      refine ⟨s, ?_, hcs⟩
      apply List.mem_map.mpr
      exact ⟨p, hp, by rw [hps]; rfl⟩
    have hne : ¬ (∀ x ∈ (ps.map (fun p => p.getD [])).flatten, isSpacePy x = true) := by
      intro hall
      rw [hall c hmem] at hcw
      simp at hcw
    have hstrip : pyStrip ((ps.map (fun p => p.getD [])).flatten) ≠ [] := by
      intro h; exact hne (pyStrip_eq_nil_iff.mp h)
    obtain ⟨d, ds, hd⟩ := List.exists_cons_of_ne_nil hstrip
    constructor
    · unfold extract_text_from_pdf
      simp only [hd, List.isEmpty_cons, Bool.false_eq_true, if_false]
    · exact List.ne_nil_of_mem hmem

/-- Witness for C7: a two-page PDF whose first page has no text layer and
whose second page holds `" a"` extracts successfully to `" a"`. -/
theorem extractor_fails_iff_blank_or_malformed_witness :
    extract_text_from_pdf (.pages [none, some (" a").toList]) =
        .ok (([none, some (" a").toList].map (fun p => p.getD [])).flatten) ∧
      ([(none : Option Str), some (" a").toList].map (fun p => p.getD [])).flatten ≠ [] :=
  extractor_fails_iff_blank_or_malformed.2.2 [none, some (" a").toList]
    ⟨some (" a").toList, by decide, (" a").toList, rfl, 'a', by decide, by decide⟩

/-! ## Claim C1: the project_ideas round-trip through the store -/

theorem splitOn1_no_sep {sep : Char} {l : Str} (h : ∀ x ∈ l, x ≠ sep) :
    splitOn1 sep l = (l, []) := by
  induction l with
  | nil => rfl
  | cons c cs ih =>
      rw [splitOn1_cons, if_neg (h c (by simp)), ih (fun x hx => h x (by simp [hx]))]

theorem splitOn1_append_sep_cons {sep : Char} {a : Str} (b : Str)
    (h : ∀ x ∈ a, x ≠ sep) :
    splitOn1 sep (a ++ sep :: b) = (a, (splitOn1 sep b).1 :: (splitOn1 sep b).2) := by
  induction a with
  | nil => simp [splitOn1_cons]
  | cons c cs ih =>
      rw [List.cons_append, splitOn1_cons, if_neg (h c (by simp)),
        ih (fun x hx => h x (by simp [hx]))]

theorem pySplit_pyJoin {ideas : List Str}
    (hsep : ∀ i ∈ ideas, ∀ ch ∈ i, ch ≠ '|') (hne : ideas ≠ []) :
    pySplit '|' (pyJoin '|' ideas) = ideas := by
  induction ideas with
  | nil => exact absurd rfl hne
  | cons a rest ih =>
      cases rest with
      | nil =>
          show pySplit '|' (pyJoin '|' [a]) = [a]
          unfold pySplit
          rw [show pyJoin '|' [a] = a from rfl, splitOn1_no_sep (hsep a (by simp))]
      | cons y t =>
          show pySplit '|' (a ++ '|' :: pyJoin '|' (y :: t)) = a :: y :: t
          unfold pySplit
          rw [splitOn1_append_sep_cons _ (hsep a (by simp))]
          have := ih (fun i hi => hsep i (by simp [hi])) (by simp)
          unfold pySplit at this
          simpa using this

theorem pyJoin_ne_nil {ideas : List Str} (hne : ideas ≠ []) (hns : ideas ≠ [[]]) :
    pyJoin '|' ideas ≠ [] := by
  cases ideas with
  | nil => exact absurd rfl hne
  | cons a rest =>
      cases rest with
      | nil =>
          show pyJoin '|' [a] ≠ []
          cases a with
          | nil => exact absurd rfl hns
          | cons c cs => simp [pyJoin]
      | cons y t =>
          show a ++ '|' :: pyJoin '|' (y :: t) ≠ []
          cases a <;> simp

theorem parseIdeas_pyJoin {ideas : List Str}
    (hsep : ∀ i ∈ ideas, ∀ ch ∈ i, ch ≠ '|') (hns : ideas ≠ [[]]) :
    parseIdeas (pyJoin '|' ideas) = ideas := by
  cases hi : ideas with
  | nil => rfl
  | cons a rest =>
      subst hi
      have hne : pyJoin '|' (a :: rest) ≠ [] := pyJoin_ne_nil (by simp) hns
      have hne' : (pyJoin '|' (a :: rest)).isEmpty = false := by
        cases hj : pyJoin '|' (a :: rest) with
        | nil => exact absurd hj hne
        | cons c cs => rfl
      unfold parseIdeas
      rw [hne']
      simp only [Bool.false_eq_true, if_false]
      exact pySplit_pyJoin hsep (by simp)

/-- Claim C1 (amended): inserting a SummaryRecord built from an idea list in
which no idea contains the separator `'|'` — and which is not the singleton
list containing the empty string — and reading it back through the list
operation returns exactly that list; and a list containing an idea with
`'|'` in it reads back differently (`["a|b"]` comes back as `["a", "b"]`). -/
theorem ideas_roundtrip_through_store (id fn s c : Str) (ideas : List Str)
    (hsep : ∀ i ∈ ideas, ∀ ch ∈ i, ch ≠ '|') (hns : ideas ≠ [[]]) :
    get_summaries (insertRow [] (mkSummaryRow id fn s c ideas)) = [⟨fn, s, c, ideas⟩] ∧
      get_summaries (insertRow [] (mkSummaryRow id fn s c [['a', '|', 'b']])) =
        [⟨fn, s, c, [['a'], ['b']]⟩] ∧
      ([['a'], ['b']] : List Str) ≠ [['a', '|', 'b']] := by
  refine ⟨?_, ?_, by decide⟩
  · unfold get_summaries insertRow
    simp only [List.nil_append]
    rw [show List.insertionSort (fun a b : SummaryRow => a.filename ≤ b.filename)
        [mkSummaryRow id fn s c ideas] = [mkSummaryRow id fn s c ideas] from rfl]
    simp only [List.map_cons, List.map_nil]
    unfold toRecord mkSummaryRow
    rw [parseIdeas_pyJoin hsep hns]
  · unfold get_summaries insertRow
    simp only [List.nil_append]
    rw [show List.insertionSort (fun a b : SummaryRow => a.filename ≤ b.filename)
        [mkSummaryRow id fn s c [['a', '|', 'b']]] = [mkSummaryRow id fn s c [['a', '|', 'b']]] from rfl]
    simp only [List.map_cons, List.map_nil]
    unfold toRecord mkSummaryRow
    rfl

/-- Witness for C1 (amended) at a concrete idea list. -/
theorem ideas_roundtrip_through_store_witness :
    get_summaries (insertRow [] (mkSummaryRow ("u1").toList ("f.pdf").toList
        ("sum").toList ("conc").toList [("ideaA").toList, ("ideaB").toList])) =
      [⟨("f.pdf").toList, ("sum").toList, ("conc").toList,
        [("ideaA").toList, ("ideaB").toList]⟩] :=
  (ideas_roundtrip_through_store ("u1").toList ("f.pdf").toList ("sum").toList
    ("conc").toList [("ideaA").toList, ("ideaB").toList] (by decide) (by decide)).1

/-- Counterexample to C1 as stated: the idea list `[""]` contains no `'|'`
anywhere, yet inserting it and listing reads back `[]`, not `[""]` — the
joined string is empty and the read side maps the empty string to the empty
list. -/
theorem ideas_roundtrip_counterexample :
    (∀ i ∈ [([] : Str)], ∀ ch ∈ i, ch ≠ '|') ∧
      get_summaries (insertRow [] (mkSummaryRow ("i").toList ("f").toList
          ("s").toList ("c").toList [[]])) =
        [⟨("f").toList, ("s").toList, ("c").toList, []⟩] ∧
      ([] : List Str) ≠ [[]] := by decide

/-! ## Claim C9: the list operation orders by filename -/

/-- Claim C9: for every store state, `get_summaries` returns exactly the
stored records (a permutation of them, one output record per stored row)
ordered by filename; a concrete two-row store shows the order follows the
filenames, not the insertion sequence or the ids. -/
theorem list_returns_all_records_ordered_by_filename :
    (∀ db : List SummaryRow, (get_summaries db).Perm (db.map toRecord)) ∧
    (∀ db : List SummaryRow,
        List.Pairwise (fun a b : SummaryOut => a.filename ≤ b.filename)
          (get_summaries db)) ∧
    get_summaries [⟨("1").toList, ("z").toList, [], [], []⟩,
        ⟨("2").toList, ("a").toList, [], [], []⟩] =
      [⟨("a").toList, [], [], []⟩, ⟨("z").toList, [], [], []⟩] ∧
    [⟨("1").toList, ("z").toList, [], [], []⟩,
        (⟨("2").toList, ("a").toList, [], [], []⟩ : SummaryRow)].map toRecord =
      [⟨("z").toList, [], [], []⟩, ⟨("a").toList, [], [], []⟩] ∧
    ([⟨("a").toList, [], [], []⟩, (⟨("z").toList, [], [], []⟩ : SummaryOut)] ≠
      [⟨("z").toList, [], [], []⟩, ⟨("a").toList, [], [], []⟩]) := by
  refine ⟨?_, ?_, by decide, by decide, by decide⟩
  · intro db
    exact (List.perm_insertionSort (fun a b : SummaryRow => a.filename ≤ b.filename) db).map toRecord
  · intro db
    have hs := List.sorted_insertionSort (fun a b : SummaryRow => a.filename ≤ b.filename) db
    exact List.Pairwise.map toRecord (fun a b hab => hab) hs

/-! ## Claim C2: transaction scope of the multi-file batch -/

theorem summarizeAppLoop_spec (uuid : Nat → Str) :
    ∀ (files : List BatchFile) (k : Nat) (db : List SummaryRow),
      (summarizeAppLoop uuid k db files).2 = db ++ okRows uuid k files ∧
      ((summarizeAppLoop uuid k db files).1 = .error () ↔
        ∃ f ∈ files, f.outcome = .fail) := by
  intro files
  induction files with
  | nil =>
      intro k db
      refine ⟨by simp [summarizeAppLoop, okRows], ?_⟩
      simp [summarizeAppLoop]
  | cons f fs ih =>
      intro k db
      cases hout : f.outcome with
      | fail =>
          refine ⟨?_, ?_⟩
          · simp [summarizeAppLoop, hout, okRows]
          · simp only [summarizeAppLoop, hout]
            constructor
            · intro _; exact ⟨f, by simp, hout⟩
            · intro _; trivial
      | ok s c ideas =>
          have ihs := ih (k + 1) (insertRow db (rowOf uuid k f s c ideas))
          cases hres : summarizeAppLoop uuid (k + 1)
              (insertRow db (rowOf uuid k f s c ideas)) fs with
          | mk res dbF =>
              rw [hres] at ihs
              refine ⟨?_, ?_⟩
              · cases res with
                | ok rs =>
                    simp only [summarizeAppLoop, hout, hres]
                    have h2 := ihs.1
                    simp only at h2
                    rw [h2]
                    simp [insertRow, okRows, hout]
                | error e =>
                    simp only [summarizeAppLoop, hout, hres]
                    have h2 := ihs.1
                    simp only at h2
                    rw [h2]
                    simp [insertRow, okRows, hout]
              · have h1 := ihs.2
                simp only at h1
                cases res with
                | ok rs =>
                    simp only [summarizeAppLoop, hout, hres]
                    constructor
                    · intro h; exact absurd h (by simp)
                    · intro ⟨g, hg, hgf⟩
                      rcases List.mem_cons.mp hg with h | h
                      · subst h; rw [hout] at hgf; exact absurd hgf (by simp)
                      · exact absurd (h1.mpr ⟨g, h, hgf⟩) (by simp)
                | error e =>
                    simp only [summarizeAppLoop, hout, hres]
                    constructor
                    · intro _
                      obtain ⟨g, hg, hgf⟩ := h1.mp rfl
                      exact ⟨g, by simp [hg], hgf⟩
                    · intro _; trivial

theorem summarizeIndexLoop_fail (uuid : Nat → Str) :
    ∀ (files : List BatchFile) (k : Nat),
      (∃ f ∈ files, f.outcome = .fail) →
      summarizeIndexLoop uuid k files = .error () := by
  intro files
  induction files with
  | nil => intro k ⟨f, hf, _⟩; exact absurd hf (by simp)
  | cons f fs ih =>
      intro k ⟨g, hg, hgf⟩
      cases hout : f.outcome with
      | fail => simp [summarizeIndexLoop, hout]
      | ok s c ideas =>
          have hgfs : g ∈ fs := by
            rcases List.mem_cons.mp hg with h | h
            · subst h; rw [hout] at hgf; exact absurd hgf (by simp)
            · exact h
          simp [summarizeIndexLoop, hout, ih (k + 1) ⟨g, hgfs, hgf⟩]

/-- Claim C2 (amended): in the primary variant (`app.py`) each successfully
processed file's row is committed immediately inside the loop, so when a
later file fails the request aborts with an error but the rows for the
files preceding the first failure remain durably committed — the final
store is the original plus exactly those rows; it is only the serverless
variant (`api/index.py`), which commits once after the loop, that discards
the whole batch's pending inserts on failure and leaves the store
unchanged. -/
theorem batch_failure_keeps_committed_rows :
    (∀ (uuid : Nat → Str) (db : List SummaryRow) (files : List BatchFile),
        (summarize_papers_app uuid db files).2 = db ++ okRows uuid 0 files) ∧
    (∀ (uuid : Nat → Str) (db : List SummaryRow) (files : List BatchFile),
        ((summarize_papers_app uuid db files).1 = .error () ↔
          ∃ f ∈ files, f.outcome = .fail)) ∧
    (∀ (uuid : Nat → Str) (db : List SummaryRow) (files : List BatchFile),
        (∃ f ∈ files, f.outcome = .fail) →
        (summarize_papers_index uuid db files).2 = db) := by
  refine ⟨?_, ?_, ?_⟩
  · intro uuid db files
    exact (summarizeAppLoop_spec uuid files 0 db).1
  · intro uuid db files
    exact (summarizeAppLoop_spec uuid files 0 db).2
  · intro uuid db files h
    unfold summarize_papers_index
    rw [summarizeIndexLoop_fail uuid files 0 h]

/-- Witness for C2 (amended) at a concrete batch: first file succeeds,
second fails — the primary variant keeps the first row, the serverless
variant keeps none. -/
theorem batch_failure_keeps_committed_rows_witness :
    (summarize_papers_app (fun _ => ("u").toList) []
        [⟨("a.pdf").toList, .ok ("s").toList ("c").toList []⟩,
          ⟨("b.pdf").toList, .fail⟩]).2 =
      [] ++ okRows (fun _ => ("u").toList) 0
        [⟨("a.pdf").toList, .ok ("s").toList ("c").toList []⟩,
          ⟨("b.pdf").toList, .fail⟩] ∧
    (summarize_papers_index (fun _ => ("u").toList)
        [⟨("x").toList, ("x").toList, [], [], []⟩]
        [⟨("b.pdf").toList, .fail⟩]).2 =
      [⟨("x").toList, ("x").toList, [], [], []⟩] :=
  ⟨batch_failure_keeps_committed_rows.1 (fun _ => ("u").toList) []
      [⟨("a.pdf").toList, .ok ("s").toList ("c").toList []⟩,
        ⟨("b.pdf").toList, .fail⟩],
    batch_failure_keeps_committed_rows.2.2 (fun _ => ("u").toList)
      [⟨("x").toList, ("x").toList, [], [], []⟩]
      [⟨("b.pdf").toList, .fail⟩]
      ⟨⟨("b.pdf").toList, .fail⟩, by simp, rfl⟩⟩

/-- Counterexample to C2 as stated: in the primary variant (`app.py`) a
batch whose first file succeeds and whose second fails aborts the request,
yet the first file's row is already committed — the store is not left
empty, so it is false that no row inserted during the request remains. -/
theorem batch_abort_counterexample :
    (summarize_papers_app (fun _ => ("u").toList) []
        [⟨("a.pdf").toList, .ok ("s").toList ("c").toList []⟩,
          ⟨("b.pdf").toList, .fail⟩]).1 = .error () ∧
    (summarize_papers_app (fun _ => ("u").toList) []
        [⟨("a.pdf").toList, .ok ("s").toList ("c").toList []⟩,
          ⟨("b.pdf").toList, .fail⟩]).2 =
      [⟨("u").toList, ("a.pdf").toList, ("s").toList, ("c").toList, []⟩] ∧
    ([⟨("u").toList, ("a.pdf").toList, ("s").toList, ("c").toList, []⟩] :
        List SummaryRow) ≠ [] := by
  refine ⟨rfl, rfl, by decide⟩

/-! ## Claim C10: generate / edit endpoints reject empty inputs like missing ones -/

/-- Claim C10: the generate-codebase endpoint returns 400 whenever the
`idea` field is absent, the empty string or the empty object — for every
gateway oracle, i.e. before any model call can influence the outcome — and
never returns 400 at this check for a non-empty string idea; likewise the
edit endpoint returns 400 whenever `original_code` or `edit_request` is
absent/empty, and not 400 when both are non-empty. -/
theorem endpoints_reject_empty_like_missing :
    (∀ (g : Option GeneratedCodebase) (body : List (Str × JValue)),
        (pyGet body ("idea").toList = none ∨
          pyGet body ("idea").toList = some (.str []) ∨
          pyGet body ("idea").toList = some (.obj [])) →
        generate_website_code_api g body = .error 400) ∧
    (∀ (g : Option GeneratedCodebase) (body : List (Str × JValue)) (s : Str),
        s ≠ [] → pyGet body ("idea").toList = some (.str s) →
        generate_website_code_api g body ≠ .error 400) ∧
    (∀ (g : Option GeneratedCodebase) (body : List (Str × JValue)),
        (pyGet body ("original_code").toList = none ∨
          pyGet body ("original_code").toList = some (.str []) ∨
          pyGet body ("original_code").toList = some (.obj []) ∨
          pyGet body ("edit_request").toList = none ∨
          pyGet body ("edit_request").toList = some (.str []) ∨
          pyGet body ("edit_request").toList = some (.obj [])) →
        edit_code_api g body = .error 400) ∧
    (∀ (g : Option GeneratedCodebase) (body : List (Str × JValue))
        (fs : List (Str × JValue)) (s : Str), fs ≠ [] → s ≠ [] →
        pyGet body ("original_code").toList = some (.obj fs) →
        pyGet body ("edit_request").toList = some (.str s) →
        edit_code_api g body ≠ .error 400) := by
  refine ⟨?_, ?_, ?_, ?_⟩
  · intro g body h
    unfold generate_website_code_api
    rcases h with h | h | h <;> rw [h] <;> simp [truthy]
  · intro g body s hs h
    unfold generate_website_code_api
    rw [h]
    have : truthy (some (.str s)) = true := by
      cases s with
      | nil => exact absurd rfl hs
      | cons c cs => rfl
    rw [this]
    simp only [if_true]
    cases g with
    | none => simp
    | some cb => simp
  · intro g body h
    unfold edit_code_api
    rcases h with h | h | h | h | h | h <;> rw [h] <;> simp [truthy]
  · intro g body fs s hfs hs h1 h2
    unfold edit_code_api
    rw [h1, h2]
    have hf : truthy (some (.obj fs)) = true := by
      cases fs with
      | nil => exact absurd rfl hfs
      | cons x xs => rfl
    have ht : truthy (some (.str s)) = true := by
      cases s with
      | nil => exact absurd rfl hs
      | cons c cs => rfl
    rw [hf, ht]
    simp only [Bool.and_self, if_true]
    cases g with
    | none => simp [edit_website_code]
    | some cb => simp [edit_website_code]

/-- Witness for C10: a body without `idea` is rejected with 400 regardless
of the gateway, and a body with the non-empty idea `"x"` passes the check. -/
theorem endpoints_reject_empty_like_missing_witness :
    generate_website_code_api none [] = .error 400 ∧
      generate_website_code_api none [(("idea").toList, .str ("x").toList)] ≠ .error 400 :=
  ⟨endpoints_reject_empty_like_missing.1 none [] (Or.inl rfl),
    endpoints_reject_empty_like_missing.2.1 none
      [(("idea").toList, .str ("x").toList)] ("x").toList (by decide) rfl⟩

/-! ## Claims C4 and C5: the sanitizer -/

theorem matchP1At_some_const {l : Str} {x : Str × Str × Nat}
    (h : matchP1At l = some x) : ("const").toList <+: l := by
  cases hp : ("const").toList.isPrefixOf l with
  | true => exact List.isPrefixOf_iff_prefix.mp hp
  | false =>
      rw [show matchP1At l = none from by
        unfold matchP1At
        rw [if_neg (by rw [hp]; simp : ¬ (("const").toList.isPrefixOf l = true))]] at h
      exact absurd h (by simp)

theorem matchP2At_some_import {l : Str} {n : Nat}
    (h : matchP2At l = some n) : ("import").toList <+: l := by
  cases hp : ("import").toList.isPrefixOf l with
  | true => exact List.isPrefixOf_iff_prefix.mp hp
  | false =>
      rw [show matchP2At l = none from by
        unfold matchP2At
        rw [if_neg (by rw [hp]; simp : ¬ (("import").toList.isPrefixOf l = true))]] at h
      exact absurd h (by simp)

theorem cleanRequireAux_nil (fuel : Nat) : cleanRequireAux fuel [] = [] := by
  cases fuel <;> rfl

theorem cleanImportAux_nil (fuel : Nat) : cleanImportAux fuel [] = [] := by
  cases fuel <;> rfl

theorem cleanRequireAux_id :
    ∀ (fuel : Nat) (l : Str), ¬ (("const").toList <:+: l) →
      cleanRequireAux fuel l = l := by
  intro fuel
  induction fuel with
  | zero => intro l _; rfl
  | succ n ih =>
      intro l h
      cases l with
      | nil => rfl
      | cons c cs =>
          have hm : matchP1At (c :: cs) = none := by
            cases hmm : matchP1At (c :: cs) with
            | none => rfl
            | some x => exact absurd (matchP1At_some_const hmm).isInfix h
          simp only [cleanRequireAux, hm]
          rw [ih cs (fun hc => h (List.infix_cons hc))]

theorem cleanImportAux_id :
    ∀ (fuel : Nat) (l : Str), ¬ (("import").toList <:+: l) →
      cleanImportAux fuel l = l := by
  intro fuel
  induction fuel with
  | zero => intro l _; rfl
  | succ n ih =>
      intro l h
      cases l with
      | nil => rfl
      | cons c cs =>
          have hm : matchP2At (c :: cs) = none := by
            cases hmm : matchP2At (c :: cs) with
            | none => rfl
            | some x => exact absurd (matchP2At_some_import hmm).isInfix h
          simp only [cleanImportAux, hm]
          rw [ih cs (fun hc => h (List.infix_cons hc))]

theorem cleanRequire_id {l : Str} (h : ¬ (("const").toList <:+: l)) :
    cleanRequire l = l := cleanRequireAux_id l.length l h

theorem cleanImport_id {l : Str} (h : ¬ (("import").toList <:+: l)) :
    cleanImport l = l := cleanImportAux_id l.length l h

theorem bne_true_of_ne {c d : Char} (h : c ≠ d) : (c != d) = true := by
  simp [bne_iff_ne, h]

theorem g1OfRun_schematic (nc : Char) (name' : Str) (hnw : isSpacePy nc = false) :
    g1OfRun (' ' :: ((nc :: name') ++ [' '])) = some ((nc :: name') ++ [' ']) := by
  have hdw : List.dropWhile isSpacePy (' ' :: ((nc :: name') ++ [' '])) =
      (nc :: name') ++ [' '] := by
    rw [List.dropWhile_cons]
    simp only [show isSpacePy ' ' = true from rfl, if_true]
    rw [List.cons_append]
    exact dropWhile_cons_neg _ _ _ hnw
  unfold g1OfRun
  rw [hdw]
  simp [show isSpacePy ' ' = true from rfl]

theorem matchP1Tail_schematic (mod : Str) (hm : mod ≠ [])
    (hq : ∀ ch ∈ mod, ch ≠ '\'') :
    matchP1Tail (' ' :: (("require('").toList ++ (mod ++ ('\'' :: ')' :: ';' :: [])))) =
      some (mod, 13 + mod.length) := by
  have hX : ("require('").toList ++ (mod ++ ('\'' :: ')' :: ';' :: [])) =
      'r' :: (("equire('").toList ++ (mod ++ ('\'' :: ')' :: ';' :: []))) := rfl
  have hws2 : List.takeWhile isSpacePy
      (' ' :: (("require('").toList ++ (mod ++ ('\'' :: ')' :: ';' :: [])))) = [' '] := by
    rw [List.takeWhile_cons]
    simp only [show isSpacePy ' ' = true from rfl, if_true]
    rw [hX, List.takeWhile_cons]
    simp [show isSpacePy 'r' = false from rfl]
  have hg2 : List.takeWhile (fun c => c != '\'')
      (mod ++ ('\'' :: ')' :: ';' :: [])) = mod := by
    rw [takeWhile_append_all _ _ (fun c hc => bne_true_of_ne (hq c hc))]
    rw [List.takeWhile_cons]
    simp
  have hg2e : mod.isEmpty = false := by
    cases mod with
    | nil => exact absurd rfl hm
    | cons m ms => rfl
  unfold matchP1Tail
  rw [hws2]
  simp only [List.length_cons, List.length_nil, Nat.zero_add, List.drop_succ_cons,
    List.drop_zero]
  rw [isPrefixOf_append_self, if_pos rfl]
  rw [List.drop_left' (show ("require('").toList.length = 9 from rfl)]
  rw [hg2, hg2e]
  simp only [Bool.false_eq_true, if_false]
  rw [List.drop_left' rfl]
  rw [show ("')").toList.isPrefixOf ('\'' :: ')' :: ';' :: []) = true from rfl, if_pos rfl]
  rw [List.drop_append 2]
  simp only [List.drop_succ_cons, List.drop_zero]
  congr 1
  congr 1
  omega

theorem matchP1At_schematic (nc : Char) (name' mod : Str)
    (hnw : isSpacePy nc = false) (hne : ∀ ch ∈ nc :: name', ch ≠ '=')
    (hm : mod ≠ []) (hq : ∀ ch ∈ mod, ch ≠ '\'') :
    matchP1At (("const ").toList ++ ((nc :: name') ++
        ((" = require('").toList ++ (mod ++ ("');").toList)))) =
      some ((nc :: name') ++ [' '], mod, 21 + (nc :: name').length + mod.length) := by
  have hinput : ("const ").toList ++ ((nc :: name') ++
      ((" = require('").toList ++ (mod ++ ("');").toList))) =
      ("const").toList ++ (' ' :: ((nc :: name') ++ (' ' :: '=' ::
        (' ' :: (("require('").toList ++ (mod ++ ('\'' :: ')' :: ';' :: []))))))) := by
    simp
  rw [hinput]
  have hrun : List.takeWhile (fun c => c != '=')
      (' ' :: ((nc :: name') ++ (' ' :: '=' ::
        (' ' :: (("require('").toList ++ (mod ++ ('\'' :: ')' :: ';' :: []))))))) =
      ' ' :: ((nc :: name') ++ [' ']) := by
    rw [List.takeWhile_cons]
    simp only [show ((' ' : Char) != '=') = true from rfl, if_true]
    rw [takeWhile_append_all _ _ (fun c hc => bne_true_of_ne (hne c hc))]
    rw [List.takeWhile_cons]
    simp only [show ((' ' : Char) != '=') = true from rfl, if_true]
    rw [List.takeWhile_cons]
    simp
  have hsplit : (' ' :: ((nc :: name') ++ (' ' :: '=' ::
        (' ' :: (("require('").toList ++ (mod ++ ('\'' :: ')' :: ';' :: []))))))) =
      (' ' :: ((nc :: name') ++ [' '])) ++ ('=' ::
        (' ' :: (("require('").toList ++ (mod ++ ('\'' :: ')' :: ';' :: []))))) := by
    simp
  unfold matchP1At
  rw [if_pos (isPrefixOf_append_self _ _)]
  rw [List.drop_left' (show ("const").toList.length = 5 from rfl)]
  dsimp only
  rw [hrun]
  rw [show (' ' :: ((nc :: name') ++ (' ' :: '=' ::
        (' ' :: (("require('").toList ++ (mod ++ ('\'' :: ')' :: ';' :: []))))))).drop
        (' ' :: ((nc :: name') ++ [' '])).length =
      '=' :: (' ' :: (("require('").toList ++ (mod ++ ('\'' :: ')' :: ';' :: []))))
    from by rw [hsplit]; exact List.drop_left _ _]
  rw [g1OfRun_schematic nc name' hnw]
  show (match matchP1Tail (' ' :: (("require('").toList ++
        (mod ++ ('\'' :: ')' :: ';' :: [])))) with
      | none => (none : Option (Str × Str × Nat))
      | some (g2, m) => some ((nc :: name') ++ [' '], g2,
          5 + (' ' :: ((nc :: name') ++ [' '])).length + 1 + m)) =
    some ((nc :: name') ++ [' '], mod, 21 + (nc :: name').length + mod.length)
  rw [matchP1Tail_schematic mod hm hq]
  show some ((nc :: name') ++ [' '], mod,
      5 + (' ' :: ((nc :: name') ++ [' '])).length + 1 + (13 + mod.length)) =
    some ((nc :: name') ++ [' '], mod, 21 + (nc :: name').length + mod.length)
  simp only [Option.some.injEq, Prod.mk.injEq, true_and, List.length_cons,
    List.length_append, List.length_nil]
  omega

theorem cleanRequireAux_full_match {l g1 g2 : Str}
    (h : matchP1At l = some (g1, g2, l.length)) (hl : l ≠ []) :
    cleanRequireAux l.length l = repl1 g1 g2 := by
  cases l with
  | nil => exact absurd rfl hl
  | cons c cs =>
      show cleanRequireAux (cs.length + 1) (c :: cs) = repl1 g1 g2
      simp only [cleanRequireAux, h]
      rw [show (c :: cs).length - 1 = cs.length from by simp]
      rw [List.drop_length, cleanRequireAux_nil]
      simp

theorem clean_js_code_schematic (nc : Char) (name' mod : Str)
    (hnw : isSpacePy nc = false) (hne : ∀ ch ∈ nc :: name', ch ≠ '=')
    (hm : mod ≠ []) (hq : ∀ ch ∈ mod, ch ≠ '\'')
    (himp : ¬ (("import").toList <:+: repl1 ((nc :: name') ++ [' ']) mod)) :
    clean_js_code (("const ").toList ++ ((nc :: name') ++
        ((" = require('").toList ++ (mod ++ ("');").toList)))) =
      repl1 ((nc :: name') ++ [' ']) mod := by
  have hlen : (("const ").toList ++ ((nc :: name') ++
      ((" = require('").toList ++ (mod ++ ("');").toList)))).length =
      21 + (nc :: name').length + mod.length := by
    simp only [List.length_append, List.length_cons,
      show ("const ").toList.length = 6 from rfl,
      show (" = require('").toList.length = 12 from rfl,
      show ("');").toList.length = 3 from rfl]
    omega
  have hmatch : matchP1At (("const ").toList ++ ((nc :: name') ++
      ((" = require('").toList ++ (mod ++ ("');").toList)))) =
      some ((nc :: name') ++ [' '], mod,
        (("const ").toList ++ ((nc :: name') ++
          ((" = require('").toList ++ (mod ++ ("');").toList)))).length) := by
    rw [hlen]
    exact matchP1At_schematic nc name' mod hnw hne hm hq
  unfold clean_js_code cleanRequire
  rw [cleanRequireAux_full_match hmatch (by simp)]
  exact cleanImport_id himp

/-- Claim C4: `clean_js_code` is a deterministic transform (a function) that
(1) rewrites the concrete statement `const fs = require('fs');` to a
same-line comment retaining the names `fs` and the module path `fs`;
(2) rewrites every statement of the form `const <names> = require('<mod>');`
to the comment template with the original names and module path substituted
(stated for names with a non-whitespace first character and no `=`, and a
non-empty single-quote-free module, the shapes the regex accepts);
(3) replaces `import x from '<m>';` by the fixed marker comment for every
`m` in `fs`, `path`, `http`, `module`; and
(4) leaves any input matching neither pattern unchanged — in particular any
input containing neither the literal `const` nor the literal `import`. -/
theorem clean_js_code_spec :
    (clean_js_code ("const fs = require('fs');").toList =
        ("// const fs  = require(\"fs\"); // Commented out for browser compatibility").toList) ∧
    (∀ (nc : Char) (name' mod : Str),
        isSpacePy nc = false → (∀ ch ∈ nc :: name', ch ≠ '=') →
        mod ≠ [] → (∀ ch ∈ mod, ch ≠ '\'') →
        ¬ (("import").toList <:+: repl1 ((nc :: name') ++ [' ']) mod) →
        clean_js_code (("const ").toList ++ ((nc :: name') ++
            ((" = require('").toList ++ (mod ++ ("');").toList)))) =
          repl1 ((nc :: name') ++ [' ']) mod) ∧
    (∀ m ∈ importMods,
        clean_js_code (("import x from '").toList ++ (m ++ ("';").toList)) = repl2) ∧
    (∀ s : Str, ¬ (("const").toList <:+: s) → ¬ (("import").toList <:+: s) →
        clean_js_code s = s) := by
  refine ⟨by decide, ?_, by decide, ?_⟩
  · intro nc name' mod h1 h2 h3 h4 h5
    exact clean_js_code_schematic nc name' mod h1 h2 h3 h4 h5
  · intro s h1 h2
    unfold clean_js_code
    rw [cleanRequire_id h1, cleanImport_id h2]

/-- Witness for C4: the schematic branch at `name = "fs"`, `mod = "fs"`, and
the identity branch at the unrelated line `let z = 1;`. -/
theorem clean_js_code_spec_witness :
    clean_js_code (("const ").toList ++ (('f' :: ['s']) ++
        ((" = require('").toList ++ (("fs").toList ++ ("');").toList)))) =
      repl1 (('f' :: ['s']) ++ [' ']) ("fs").toList ∧
    clean_js_code ("let z = 1;").toList = ("let z = 1;").toList :=
  ⟨clean_js_code_spec.2.1 'f' ['s'] ("fs").toList (by decide) (by decide)
      (by decide) (by decide) (by decide),
    clean_js_code_spec.2.2.2 ("let z = 1;").toList (by decide) (by decide)⟩

/-- Counterexample to C5 as stated: a codebase whose `script_js` is the
require statement `const fs = require("fs");` (double-quoted) passes through
the Edit Stage's sanitization completely unchanged — the regex only matches
single-quoted requires — so the result still contains the literal
`require(` call site, unsanitized. -/
theorem edit_unsanitized_require_counterexample :
    edit_website_code (some ⟨⟨[], [], ("const fs = require(\"fs\");").toList⟩, [], []⟩) =
      .ok ⟨⟨[], [], ("const fs = require(\"fs\");").toList⟩, [], []⟩ ∧
    ("require(").toList <:+: ("const fs = require(\"fs\");").toList := by
  constructor
  · have h : clean_js_code ("const fs = require(\"fs\");").toList =
        ("const fs = require(\"fs\");").toList := by decide
    simp only [edit_website_code]
    simp only [Except.ok.injEq]
    rw [h]
  · decide

/-- Claim C5 (amended): the Edit Stage sanitizes exactly the patterns the
regex covers — when the model returns a codebase whose `script_js` is a
single-quoted statement `const <names> = require('<module>');`, the edit
result's `script_js` is the comment rewriting of it (in particular it starts
with `// `); require call sites outside that pattern (for example
double-quoted requires or bare calls) may survive unsanitized. -/
theorem edit_stage_comments_out_pattern_require
    (nc : Char) (name' mod ih sc bk ins : Str)
    (hnw : isSpacePy nc = false) (hne : ∀ ch ∈ nc :: name', ch ≠ '=')
    (hm : mod ≠ []) (hq : ∀ ch ∈ mod, ch ≠ '\'')
    (himp : ¬ (("import").toList <:+: repl1 ((nc :: name') ++ [' ']) mod)) :
    edit_website_code (some ⟨⟨ih, sc, ("const ").toList ++ ((nc :: name') ++
        ((" = require('").toList ++ (mod ++ ("');").toList)))⟩, bk, ins⟩) =
      .ok ⟨⟨ih, sc, repl1 ((nc :: name') ++ [' ']) mod⟩, bk, ins⟩ ∧
    ("// ").toList <+: repl1 ((nc :: name') ++ [' ']) mod := by
  constructor
  · have h := clean_js_code_schematic nc name' mod hnw hne hm hq himp
    simp only [edit_website_code]
    simp only [Except.ok.injEq]
    rw [h]
  · refine ⟨("const ").toList ++ (((nc :: name') ++ [' ']) ++
      ((" = require(\"").toList ++ (mod ++
        ("\"); // Commented out for browser compatibility").toList))), ?_⟩
    show ("// ").toList ++ _ = repl1 ((nc :: name') ++ [' ']) mod
    unfold repl1
    rw [show ("// const ").toList = ("// ").toList ++ ("const ").toList from rfl]
    simp [List.append_assoc]

/-- Witness for C5 (amended) at `name = "fs"`, `mod = "fs"`. -/
theorem edit_stage_comments_out_pattern_require_witness :
    edit_website_code (some ⟨⟨[], [], ("const ").toList ++ (('f' :: ['s']) ++
        ((" = require('").toList ++ (("fs").toList ++ ("');").toList)))⟩, [], []⟩) =
      .ok ⟨⟨[], [], repl1 (('f' :: ['s']) ++ [' ']) ("fs").toList⟩, [], []⟩ ∧
    ("// ").toList <+: repl1 (('f' :: ['s']) ++ [' ']) ("fs").toList :=
  edit_stage_comments_out_pattern_require 'f' ['s'] ("fs").toList [] [] [] []
    (by decide) (by decide) (by decide) (by decide) (by decide)
